import Mathlib

/-!
# Verification of the endpoint-discovery and load-balancing layer

This file gives a shallow embedding, in Lean 4, of the client-side endpoint
discovery and load-balancing layer of the go-mongodb-sharding-poc repository
(package `internal/loadbalancer`, plus the health registration helper in
`internal/config`), and proves the testable properties stated in the design
document about it.

The embedding follows the Go sources:

* `staticResolverBuilder.Build`, `staticResolver` — the `static:///` scheme
  resolver that splits a comma-separated endpoint list once at build time.
* `PeriodicDNSResolver` (`refreshLoop`, `ResolveNow`, `Close`) — modelled as an
  explicit state machine over the events {tick, resolveNow, close}, with the
  `sync.Once` guard and the `done` channel made explicit.
* `RegisterResolvers` and the gRPC resolver registry — modelled as an
  association list from scheme strings to builder tags.
* `RegisterHealthServer` — the health status map and the two
  `SetServingStatus` calls it performs.
* `DefaultServiceConfig` — the service-config JSON produced via
  `encoding/json`'s `Marshal`, modelled with a faithful value type, string
  escaper and key-sorted object encoder.

Side effects are made explicit: the gRPC `ClientConn` that a resolver pushes
address sets into is modelled as the list of published resolver states, and
`UpdateState` appends to it.
-/

/-! ## Go string primitives -/

/-- Go's `unicode.IsSpace` (the White_Space property): the exact finite set of
code points Go treats as whitespace. -/
def goIsSpace (c : Char) : Bool :=
  let n := c.toNat
  (0x09 ≤ n && n ≤ 0x0D) || n = 0x20 || n = 0x85 || n = 0xA0 || n = 0x1680 ||
  (0x2000 ≤ n && n ≤ 0x200A) || n = 0x2028 || n = 0x2029 || n = 0x202F ||
  n = 0x205F || n = 0x3000

/-- Go's `strings.TrimSpace`: drop leading and trailing whitespace. -/
def goTrimSpace (s : String) : String :=
  ⟨((s.data.dropWhile goIsSpace).reverse.dropWhile goIsSpace).reverse⟩

/-- Go's `strings.Split` with a one-character separator, on the character
list: `Split("", sep) = [""]`, and in general one piece per separator-delimited
segment, empty pieces included. -/
def goSplitChars (sep : Char) : List Char → List (List Char)
  | [] => [[]]
  | c :: rest =>
    if c = sep then [] :: goSplitChars sep rest
    else
      match goSplitChars sep rest with
      | [] => [[c]]
      | piece :: pieces => (c :: piece) :: pieces

/-- Go's `strings.Split(s, ",")`. -/
def goSplitComma (s : String) : List String :=
  (goSplitChars ',' s.data).map String.mk

/-! ## Addresses, resolver states, and the owning connection

`resolver.Address` carries the `Addr` string; `resolver.State` carries the
address list.  The owning `resolver.ClientConn` is modelled by the list of
states that have been published into it: `cc.UpdateState(st)` appends `st`. -/

structure Address where
  addr : String
deriving DecidableEq, Repr

structure ResolverState where
  addresses : List Address
deriving DecidableEq, Repr

/-- The sequence of states published to the owning connection, oldest first. -/
abbrev CCLog := List ResolverState

/-- The build-time error taxonomy of the design document.  Both failure
branches of `staticResolverBuilder.Build` return an invalid-target error
(`fmt.Errorf`); the message strings follow the Go sources. -/
inductive LBError where
  | invalidTarget (msg : String)
  | unknownScheme
  | resolverBuildFailed (msg : String)
deriving DecidableEq, Repr

/-! ## The static resolver (`staticResolverBuilder.Build`, `staticResolver`) -/

/-- The accumulation loop of `staticResolverBuilder.Build`: trim each host,
skip entries that trim to empty, and keep the rest in input order. -/
def collectStaticAddrs : List String → List Address
  | [] => []
  | h :: t =>
    let h2 := goTrimSpace h
    if h2 = "" then collectStaticAddrs t
    else Address.mk h2 :: collectStaticAddrs t

/-- The returned resolver is an empty struct; `ResolveNow` and `Close` on it
are no-ops. -/
structure StaticResolver where
deriving DecidableEq, Repr

/-- `staticResolverBuilder.Build`.  Returns the build result together with the
connection log; `cc.UpdateState` (modelled as an append, always succeeding) is
reached only on the success path. -/
def staticResolverBuild (endpoint : String) (cc : CCLog) :
    Except LBError StaticResolver × CCLog :=
  if endpoint = "" then
    (Except.error (LBError.invalidTarget "static resolver: empty endpoint in target"), cc)
  else
    let hosts := goSplitComma endpoint
    let addrs := collectStaticAddrs hosts
    if addrs = [] then
      (Except.error (LBError.invalidTarget "static resolver: no valid addresses"), cc)
    else
      (Except.ok ⟨⟩, cc ++ [ResolverState.mk addrs])

/-- `staticResolver.ResolveNow`: empty body, the connection log is untouched. -/
def staticResolverResolveNow (_r : StaticResolver) (cc : CCLog) : CCLog := cc

/-- `staticResolver.Close`: empty body, the connection log is untouched. -/
def staticResolverClose (_r : StaticResolver) (cc : CCLog) : CCLog := cc

/-! ## The periodic DNS resolver (`PeriodicDNSResolver`)

The Go struct owns a `done` channel, a `sync.Once`, and the inner DNS
resolver.  We model the observable effects as counters, and the three event
sources — a tick of `refreshLoop`'s ticker, a manual `ResolveNow`, and a
`Close` — as an explicit step function:

* tick: `refreshLoop` calls `inner.ResolveNow` only while the `done` channel
  is still open (once `close(done)` has run the loop has returned, so later
  ticks reach nobody);
* `ResolveNow`: forwards to `inner.ResolveNow` unconditionally — the Go method
  body is exactly `r.inner.ResolveNow(opts)`, with no closed-state check;
* `Close`: guarded by `once.Do`, which runs `close(r.done)` and
  `r.inner.Close()` the first time only. -/

structure PDNSState where
  /-- Whether `close(r.done)` has run (equivalently: the `sync.Once` fired). -/
  closed : Bool
  /-- How many times `close(r.done)` has executed (a second would panic). -/
  doneCloses : Nat
  /-- How many times `r.inner.Close()` has executed. -/
  innerCloses : Nat
  /-- How many times `r.inner.ResolveNow(...)` has executed. -/
  innerResolves : Nat
deriving DecidableEq, Repr

/-- The state right after `periodicDNSBuilder.Build` returned: `done` open,
nothing released, no re-resolutions triggered yet. -/
def pdnsInit : PDNSState := ⟨false, 0, 0, 0⟩

inductive PDNSEvent where
  | tick
  | resolveNow
  | close
deriving DecidableEq, Repr

/-- One event of the periodic resolver's lifetime. -/
def pdnsStep (s : PDNSState) : PDNSEvent → PDNSState
  | PDNSEvent.tick =>
    if s.closed then s
    else { s with innerResolves := s.innerResolves + 1 }
  | PDNSEvent.resolveNow =>
    { s with innerResolves := s.innerResolves + 1 }
  | PDNSEvent.close =>
    if s.closed then s
    else { s with closed := true,
                  doneCloses := s.doneCloses + 1,
                  innerCloses := s.innerCloses + 1 }

/-- Run a whole event trace from the freshly built resolver. -/
def pdnsRun (es : List PDNSEvent) : PDNSState :=
  es.foldl pdnsStep pdnsInit

/-! ## The resolver registry (`RegisterResolvers` and `resolver.Register`)

`resolver.Register(b)` stores `b` in gRPC's global scheme map under
`b.Scheme()`.  We model the map as an association list where registering conses
the new entry and lookup takes the first match (exactly the overwrite
semantics a map assignment has).  The builders are represented by tags. -/

inductive ResolverBuilderTag where
  /-- The repository's `staticResolverBuilder` (scheme "static"). -/
  | staticBuilderTag
  /-- The repository's `periodicDNSBuilder` with its re-resolve interval in
  seconds (scheme "dns").  Defined in the sources but never registered. -/
  | periodicDNSBuilderTag (intervalSeconds : Nat)
  /-- gRPC's built-in DNS builder, pre-registered by the grpc library under
  scheme "dns" (the sources witness this via `resolver.Get("dns")`). -/
  | grpcDNSBuilderTag
  /-- gRPC's built-in passthrough builder. -/
  | grpcPassthroughBuilderTag
  /-- gRPC's built-in unix-socket builder. -/
  | grpcUnixBuilderTag
deriving DecidableEq, Repr

/-- `Scheme()` of each builder, as written in the sources. -/
def tagScheme : ResolverBuilderTag → String
  | ResolverBuilderTag.staticBuilderTag => "static"
  | ResolverBuilderTag.periodicDNSBuilderTag _ => "dns"
  | ResolverBuilderTag.grpcDNSBuilderTag => "dns"
  | ResolverBuilderTag.grpcPassthroughBuilderTag => "passthrough"
  | ResolverBuilderTag.grpcUnixBuilderTag => "unix"

abbrev ResolverRegistry := List (String × ResolverBuilderTag)

/-- `resolver.Register(b)`: map assignment keyed by `b.Scheme()`. -/
def resolverRegister (reg : ResolverRegistry) (b : ResolverBuilderTag) :
    ResolverRegistry :=
  (tagScheme b, b) :: reg

/-- `resolver.Get(scheme)`: map lookup (first, i.e. most recent, entry wins). -/
def registryGet (reg : ResolverRegistry) (scheme : String) :
    Option ResolverBuilderTag :=
  match reg with
  | [] => none
  | (k, b) :: rest => if k = scheme then some b else registryGet rest scheme

/-- gRPC's global registry as the process finds it at startup: the grpc
library pre-registers its dns, passthrough and unix builders. -/
def grpcInitRegistry : ResolverRegistry :=
  [("dns", ResolverBuilderTag.grpcDNSBuilderTag),
   ("passthrough", ResolverBuilderTag.grpcPassthroughBuilderTag),
   ("unix", ResolverBuilderTag.grpcUnixBuilderTag)]

/-- The `defaultReResolveInterval` constant of the sources (30 seconds). -/
def defaultReResolveInterval : Nat := 30

/-- `RegisterResolvers`, as written: it registers the static builder and
nothing else.  In particular the periodic DNS builder is never registered. -/
def RegisterResolvers (reg : ResolverRegistry) : ResolverRegistry :=
  resolverRegister reg ResolverBuilderTag.staticBuilderTag

/-! ## `NewClientConn` scheme dispatch -/

/-- Scan for the first "://" and return the characters before it. -/
def findSchemeAux (acc : List Char) : List Char → Option String
  | ':' :: '/' :: '/' :: _ => some ⟨acc.reverse⟩
  | c :: rest => findSchemeAux (c :: acc) rest
  | [] => none

/-- The scheme of a target descriptor string "scheme:///endpoint". -/
def parseScheme (target : String) : String :=
  (findSchemeAux [] target.data).getD ""

/-- The connection handle returned on success. -/
structure ClientConn where
  scheme : String
  builder : ResolverBuilderTag
deriving DecidableEq, Repr

/-- Modelled from the spec: the scheme dispatch performed inside gRPC channel
creation, which `NewClientConn` delegates to, lives in the gRPC library and is
not part of this repository's sources.  The design document specifies it as
"Fails with UnknownScheme if no resolver is registered for the target's
scheme."  `NewClientConn` itself (from the sources) first calls
`RegisterResolvers()` on the global registry and then builds the channel. -/
def NewClientConn (target : String) : Except LBError ClientConn :=
  let reg := RegisterResolvers grpcInitRegistry
  match registryGet reg (parseScheme target) with
  | none => Except.error LBError.unknownScheme
  | some b => Except.ok ⟨parseScheme target, b⟩

/-! ## Health registration (`RegisterHealthServer`) -/

inductive HealthStatus where
  | unknown
  | serving
  | notServing
  | serviceUnknown
deriving DecidableEq, Repr

/-- The health server's status map: service name to last-set status, most
recent entry first (assignment conses, lookup takes the first match). -/
abbrev HealthMap := List (String × HealthStatus)

/-- `health.Server.SetServingStatus(service, status)`: map assignment. -/
def setServingStatus (m : HealthMap) (service : String) (st : HealthStatus) :
    HealthMap :=
  (service, st) :: m

/-- Status lookup, the read path of the health service. -/
def getServingStatus (m : HealthMap) (service : String) : Option HealthStatus :=
  match m with
  | [] => none
  | (k, st) :: rest => if k = service then some st else getServingStatus rest service

/-- `health.NewServer()`: the grpc health server starts with the overall
(empty-string) service already at SERVING. -/
def healthNewServer : HealthMap := [("", HealthStatus.serving)]

/-- `RegisterHealthServer` from `internal/config/config.go`: create the health
server, set the empty service and "sharding.v1.ShardingService" to SERVING. -/
def RegisterHealthServer : HealthMap :=
  setServingStatus
    (setServingStatus healthNewServer "" HealthStatus.serving)
    "sharding.v1.ShardingService"
    HealthStatus.serving

/-! ## The round-robin load-balancing policy

Modelled from the spec: `DefaultServiceConfig` selects the "round_robin"
policy, whose dispatch loop runs inside the gRPC runtime and is not part of
this repository's sources.  The design document specifies it: skip addresses
whose health status is NOT_SERVING or SERVICE_UNKNOWN, keep a cursor, and on
each dispatch atomically read-and-advance the cursor modulo the live count;
with no live address the dispatch fails with NoAvailableEndpoint. -/

/-- Whether the policy may route to an address, given each address's health
status as seen by the client. -/
def dispatchable (healthOf : Address → HealthStatus) (a : Address) : Bool :=
  match healthOf a with
  | HealthStatus.notServing => false
  | HealthStatus.serviceUnknown => false
  | _ => true

/-- One dispatch decision: pick the cursor's live address and advance the
cursor; `none` is the NoAvailableEndpoint failure. -/
def rrDispatch (healthOf : Address → HealthStatus) (addrs : List Address)
    (cursor : Nat) : Option (Address × Nat) :=
  let live := addrs.filter (dispatchable healthOf)
  match live.get? (cursor % live.length) with
  | none => none
  | some a => some (a, cursor + 1)

/-- The addresses selected by `m` consecutive dispatches starting at the given
cursor (stopping early only if a dispatch fails). -/
def rrRun (healthOf : Address → HealthStatus) (addrs : List Address) :
    Nat → Nat → List Address
  | _, 0 => []
  | cursor, m + 1 =>
    match rrDispatch healthOf addrs cursor with
    | none => []
    | some (a, cursor2) => a :: rrRun healthOf addrs cursor2 m

/-- How many of the first `m` dispatches land on slot `j` of a `k`-element
address list: the `i < m` with `i % k = j`. -/
def rrCount (k m j : Nat) : Nat :=
  ((List.range m).filter (fun i => i % k = j)).length

/-! ## `DefaultServiceConfig` and `encoding/json`

The Go function builds a `map[string]interface{}` holding strings, maps and
slices, and feeds it to `json.Marshal`, falling back to a fixed minimal config
string if `Marshal` errors.  The value type below has the kinds the config
uses, plus the function/channel kinds on which `json.Marshal` actually errors,
so the error branch is representable.  Go maps are unordered; `json.Marshal`
emits object keys in sorted order, and the field lists below are written in
that output order ("healthCheckConfig" sorts before "loadBalancingConfig"). -/

/-- The lowercase hex digit for `n % 16`, as `encoding/json` writes. -/
def hexDigitChar (n : Nat) : Char :=
  if n < 10 then Char.ofNat (48 + n % 16) else Char.ofNat (97 + n % 16 - 10)

/-- Four lowercase hex digits of `n` (used for the \u escapes). -/
def toHex4 (n : Nat) : List Char :=
  [hexDigitChar (n / 4096 % 16), hexDigitChar (n / 256 % 16),
   hexDigitChar (n / 16 % 16), hexDigitChar (n % 16)]

/-- The \uXXXX escape sequence for a character. -/
def uEscape (c : Char) : List Char :=
  '\\' :: 'u' :: toHex4 c.toNat

/-- How `encoding/json` (with its default HTML escaping) encodes one character
inside a string literal. -/
def escapeChar (c : Char) : List Char :=
  if c = '"' then ['\\', '"']
  else if c = '\\' then ['\\', '\\']
  else if c = '\n' then ['\\', 'n']
  else if c = '\r' then ['\\', 'r']
  else if c = '\t' then ['\\', 't']
  else if c = '<' then uEscape c
  else if c = '>' then uEscape c
  else if c = '&' then uEscape c
  else if c.toNat < 0x20 then uEscape c
  else if c.toNat = 0x2028 then uEscape c
  else if c.toNat = 0x2029 then uEscape c
  else [c]

/-- A JSON string literal's characters: quote, escaped body, quote. -/
def goQuoteChars (cs : List Char) : List Char :=
  '"' :: (cs.flatMap escapeChar ++ ['"'])

/-- `encoding/json`'s serialization of a Go string. -/
def goQuote (s : String) : String :=
  ⟨goQuoteChars s.data⟩

/-- The Go values `DefaultServiceConfig` feeds to `json.Marshal`: strings,
string-keyed maps, slices, and the unsupported kinds. -/
inductive GoVal where
  | vstr (s : String)
  | varr (elems : List GoVal)
  | vmap (fields : List (String × GoVal))
  | vfunc
  | vchan

/-- Comma-join, as the JSON encoder writes between elements and fields. -/
def joinComma : List String → String
  | [] => ""
  | [x] => x
  | x :: xs => x ++ "," ++ joinComma xs

mutual
/-- `json.Marshal`: errors exactly on the unsupported kinds, otherwise encodes
strings with `goQuote`, slices with brackets, and maps with braces (fields in
the already-sorted order of the field list). -/
def goMarshal : GoVal → Except String String
  | GoVal.vstr s => Except.ok (goQuote s)
  | GoVal.varr elems =>
    (goMarshalElems elems).map (fun parts => "[" ++ joinComma parts ++ "]")
  | GoVal.vmap fields =>
    (goMarshalFields fields).map
      (fun parts => "\x7b" ++ joinComma parts ++ "\x7d")
  | GoVal.vfunc => Except.error "json: unsupported type: func()"
  | GoVal.vchan => Except.error "json: unsupported type: chan"

def goMarshalElems : List GoVal → Except String (List String)
  | [] => Except.ok []
  | v :: vs => do
    let s ← goMarshal v
    let rest ← goMarshalElems vs
    pure (s :: rest)

def goMarshalFields : List (String × GoVal) → Except String (List String)
  | [] => Except.ok []
  | (k, v) :: kvs => do
    let s ← goMarshal v
    let rest ← goMarshalFields kvs
    pure ((goQuote k ++ ":" ++ s) :: rest)
end

/-- The config value built inside `DefaultServiceConfig`, fields listed in
`json.Marshal`'s sorted key order. -/
def serviceConfigValue (serviceName : String) : GoVal :=
  GoVal.vmap
    [("healthCheckConfig", GoVal.vmap [("serviceName", GoVal.vstr serviceName)]),
     ("loadBalancingConfig", GoVal.varr [GoVal.vmap [("round_robin", GoVal.vmap [])]])]

/-- The hard-coded fallback string of the error branch. -/
def minimalFallbackConfig : String :=
  "\x7b\"loadBalancingConfig\":[\x7b\"round_robin\":\x7b\x7d\x7d]\x7d"

/-- `DefaultServiceConfig` from `internal/loadbalancer/balancer.go`. -/
def DefaultServiceConfig (serviceName : String) : String :=
  match goMarshal (serviceConfigValue serviceName) with
  | Except.error _ => minimalFallbackConfig
  | Except.ok raw => raw

/-- The marshalled config before the serviceName string literal. -/
def svcCfgBefore : String := "\x7b\"healthCheckConfig\":\x7b\"serviceName\":"

/-- The marshalled config after the serviceName string literal. -/
def svcCfgAfter : String :=
  "\x7d,\"loadBalancingConfig\":[\x7b\"round_robin\":\x7b\x7d\x7d]\x7d"

/-! ## Reading the config back

A JSON string-literal reader and a reader for the exact object shape
`DefaultServiceConfig` emits, used to state that the emitted string parses
back to the given service name. -/

/-- The numeric value of one hex digit (upper or lower case). -/
def hexVal (c : Char) : Option Nat :=
  if '0' ≤ c ∧ c ≤ '9' then some (c.toNat - 48)
  else if 'a' ≤ c ∧ c ≤ 'f' then some (c.toNat - 97 + 10)
  else if 'A' ≤ c ∧ c ≤ 'F' then some (c.toNat - 65 + 10)
  else none

/-- Read a JSON string-literal body up to its closing quote, decoding escape
sequences; returns the decoded characters and the remaining input. -/
def unqAux : List Char → Option (List Char × List Char)
  | [] => none
  | c :: rest =>
    if c = '"' then some ([], rest)
    else if c = '\\' then
      match rest with
      | [] => none
      | e :: r2 =>
        if e = '"' then (unqAux r2).map (fun p => ('"' :: p.1, p.2))
        else if e = '\\' then (unqAux r2).map (fun p => ('\\' :: p.1, p.2))
        else if e = '/' then (unqAux r2).map (fun p => ('/' :: p.1, p.2))
        else if e = 'n' then (unqAux r2).map (fun p => ('\n' :: p.1, p.2))
        else if e = 'r' then (unqAux r2).map (fun p => ('\r' :: p.1, p.2))
        else if e = 't' then (unqAux r2).map (fun p => ('\t' :: p.1, p.2))
        else if e = 'b' then (unqAux r2).map (fun p => (Char.ofNat 8 :: p.1, p.2))
        else if e = 'f' then (unqAux r2).map (fun p => (Char.ofNat 12 :: p.1, p.2))
        else if e = 'u' then
          match r2 with
          | h1 :: h2 :: h3 :: h4 :: r3 =>
            match hexVal h1, hexVal h2, hexVal h3, hexVal h4 with
            | some v1, some v2, some v3, some v4 =>
              (unqAux r3).map
                (fun p => (Char.ofNat (((v1 * 16 + v2) * 16 + v3) * 16 + v4) :: p.1, p.2))
            | _, _, _, _ => none
          | _ => none
        else none
    else (unqAux rest).map (fun p => (c :: p.1, p.2))

/-- Read a whole JSON string literal, opening quote included. -/
def unquoteString : List Char → Option (List Char × List Char)
  | '"' :: cs => unqAux cs
  | _ => none

/-- Require an exact literal head and return what follows it. -/
def dropExact : List Char → List Char → Option (List Char)
  | [], rest => some rest
  | _ :: _, [] => none
  | p :: ps, c :: cs => if c = p then dropExact ps cs else none

/-- Read a string of the exact shape `DefaultServiceConfig` emits — a JSON
object whose "healthCheckConfig" field holds a "serviceName" string and whose
"loadBalancingConfig" field is the one-element round_robin list — and return
the decoded serviceName. -/
def parseServiceConfig (cfg : String) : Option String := do
  let r1 ← dropExact svcCfgBefore.data cfg.data
  let (name, r2) ← unquoteString r1
  if r2 = svcCfgAfter.data then some (String.mk name) else none

/-! ## Auxiliary observations used by the statements -/

/-- Whether a build error is an invalid-target failure. -/
def errIsInvalidTarget : LBError → Bool
  | LBError.invalidTarget _ => true
  | _ => false

/-- Whether a build result failed with an invalid-target error. -/
def buildFailedInvalidTarget (r : Except LBError StaticResolver) : Bool :=
  match r with
  | Except.error e => errIsInvalidTarget e
  | Except.ok _ => false

/-- How many of `m` consecutive dispatches starting at cursor `c` land on slot
`j` of a `k`-element address list: the `i < m` with `(c + i) % k = j`. -/
def rrCountFrom (k c m j : Nat) : Nat :=
  ((List.range m).filter (fun i => (c + i) % k = j)).length

/-- The release invariant of the periodic resolver: the done channel and the
inner resolver have been released exactly once if `Close` has run, never
otherwise. -/
def pdnsInv (s : PDNSState) : Prop :=
  s.doneCloses = (if s.closed then 1 else 0)
  ∧ s.innerCloses = (if s.closed then 1 else 0)

/-! ## Theorems

First the shared lemmas, then one theorem per claim of the design document
(with a witness instance for each theorem that carries hypotheses). -/

/-- The build loop keeps exactly the non-empty trimmed entries, in order. -/
theorem collectStaticAddrs_eq (hosts : List String) :
    collectStaticAddrs hosts =
      ((hosts.map goTrimSpace).filter (fun h => h ≠ "")).map Address.mk := by
  induction hosts with
  | nil => rfl
  | cons h t ih =>
    by_cases hh : goTrimSpace h = "" <;>
      simp [collectStaticAddrs, hh, ih, List.filter_cons]

/-- Claim C1: for every endpoint string of comma-separated host:port entries
with at least one non-empty entry after trimming, the static resolver's Build
publishes exactly one Address per non-empty trimmed entry, in input order,
dropping nothing and collapsing no duplicates. -/
theorem staticResolver_build_per_entry (endpoint : String) (cc : CCLog)
    (l : List String)
    (hl : l = ((goSplitComma endpoint).map goTrimSpace).filter (fun h => h ≠ ""))
    (hne : l ≠ []) :
    staticResolverBuild endpoint cc =
      (Except.ok ⟨⟩, cc ++ [ResolverState.mk (l.map Address.mk)]) := by
  have hemp : endpoint ≠ "" := by
    rintro rfl
    exact hne (by rw [hl]; rfl)
  have hc : collectStaticAddrs (goSplitComma endpoint) = l.map Address.mk := by
    rw [collectStaticAddrs_eq, hl]
  have hmapne : l.map Address.mk ≠ [] := by
    simpa using hne
  unfold staticResolverBuild
  rw [if_neg hemp]
  simp only [hc]
  rw [if_neg hmapne]

/-- Witness for C1: three entries, one duplicated, whitespace around one of
them; all three are published in input order, the duplicate kept. -/
theorem staticResolver_build_per_entry_witness :
    staticResolverBuild "a:1, b:2 ,a:1" [] =
      (Except.ok ⟨⟩, [ResolverState.mk
        [Address.mk "a:1", Address.mk "b:2", Address.mk "a:1"]]) := by
  have h := staticResolver_build_per_entry "a:1, b:2 ,a:1" []
    ["a:1", "b:2", "a:1"] (by rfl) (by decide)
  simpa using h

/-- Claim C2: Build fails with an invalid-target error exactly when zero
entries remain after splitting on commas and trimming (which covers the empty
and the all-whitespace endpoint), and in every failure case nothing is
published to the owning connection. -/
theorem staticResolver_invalidTarget_iff (endpoint : String) (cc : CCLog) :
    (buildFailedInvalidTarget (staticResolverBuild endpoint cc).1 = true ↔
      ((goSplitComma endpoint).map goTrimSpace).filter (fun h => h ≠ "") = [])
    ∧ (((goSplitComma endpoint).map goTrimSpace).filter (fun h => h ≠ "") = [] →
        (staticResolverBuild endpoint cc).2 = cc) := by
  by_cases hemp : endpoint = ""
  · subst hemp
    exact ⟨⟨fun _ => rfl, fun _ => rfl⟩, fun _ => rfl⟩
  · have hc := collectStaticAddrs_eq (goSplitComma endpoint)
    by_cases hf :
        ((goSplitComma endpoint).map goTrimSpace).filter (fun h => h ≠ "") = []
    · have hcoll : collectStaticAddrs (goSplitComma endpoint) = [] := by
        rw [hc, hf]; rfl
      constructor
      · constructor
        · intro _; exact hf
        · intro _
          unfold staticResolverBuild
          rw [if_neg hemp]
          simp only [hcoll]
          rfl
      · intro _
        unfold staticResolverBuild
        rw [if_neg hemp]
        simp only [hcoll]
        rfl
    · have hcoll : collectStaticAddrs (goSplitComma endpoint) ≠ [] := by
        rw [hc]
        simpa using hf
      constructor
      · constructor
        · intro habs
          exfalso
          unfold staticResolverBuild at habs
          rw [if_neg hemp] at habs
          simp only [if_neg hcoll] at habs
          simp [buildFailedInvalidTarget] at habs
        · intro h; exact absurd h hf
      · intro h; exact absurd h hf

/-- Witness for C2: the whitespace endpoint fails with the invalid-target
error and publishes nothing. -/
theorem staticResolver_invalidTarget_iff_witness :
    buildFailedInvalidTarget (staticResolverBuild "  " []).1 = true
    ∧ (staticResolverBuild "  " []).2 = [] := by
  have h := staticResolver_invalidTarget_iff "  " []
  exact ⟨h.1.mpr (by rfl), h.2 (by rfl)⟩

/-- Claim C9: on every successful build the static resolver publishes exactly
one state — appended synchronously during Build — and the returned resolver's
ResolveNow and Close leave any published log unchanged. -/
theorem staticResolver_publish_once (endpoint : String) (cc : CCLog)
    (r : StaticResolver)
    (h : (staticResolverBuild endpoint cc).1 = Except.ok r) :
    (staticResolverBuild endpoint cc).2 =
      cc ++ [ResolverState.mk (collectStaticAddrs (goSplitComma endpoint))]
    ∧ (∀ l, staticResolverResolveNow r l = l)
    ∧ (∀ l, staticResolverClose r l = l) := by
  refine ⟨?_, fun _ => rfl, fun _ => rfl⟩
  simp only [staticResolverBuild] at h ⊢
  split_ifs at h ⊢
  all_goals simp_all

/-- Witness for C9 at a one-entry endpoint. -/
theorem staticResolver_publish_once_witness :
    (staticResolverBuild "localhost:50051" []).2 =
      [] ++ [ResolverState.mk (collectStaticAddrs (goSplitComma "localhost:50051"))]
    ∧ staticResolverResolveNow ⟨⟩ [ResolverState.mk [Address.mk "localhost:50051"]]
        = [ResolverState.mk [Address.mk "localhost:50051"]]
    ∧ staticResolverClose ⟨⟩ [ResolverState.mk [Address.mk "localhost:50051"]]
        = [ResolverState.mk [Address.mk "localhost:50051"]] := by
  obtain ⟨h1, h2, h3⟩ := staticResolver_publish_once "localhost:50051" [] ⟨⟩ (by rfl)
  exact ⟨h1, h2 _, h3 _⟩

/-- One step preserves the release invariant. -/
theorem pdnsStep_inv (s : PDNSState) (e : PDNSEvent) (h : pdnsInv s) :
    pdnsInv (pdnsStep s e) := by
  obtain ⟨h1, h2⟩ := h
  cases e <;> simp only [pdnsStep, pdnsInv] <;> split_ifs <;>
    simp_all [pdnsInv]

/-- Every reachable state satisfies the release invariant. -/
theorem pdnsRun_inv (es : List PDNSEvent) : pdnsInv (pdnsRun es) := by
  have main : ∀ (l : List PDNSEvent) (s : PDNSState),
      pdnsInv s → pdnsInv (l.foldl pdnsStep s) := by
    intro l
    induction l with
    | nil => intro s hs; exact hs
    | cons e t ih => intro s hs; exact ih _ (pdnsStep_inv s e hs)
  exact main es pdnsInit ⟨rfl, rfl⟩

/-- Claim C5: along every event trace of the periodic DNS resolver, the done
channel is closed at most once and the inner resolver is closed at most once
(so no second Close panics or double-releases), and a Close after a Close is
a no-op. -/
theorem pdnsClose_idempotent (es : List PDNSEvent) :
    (pdnsRun es).doneCloses ≤ 1
    ∧ (pdnsRun es).innerCloses ≤ 1
    ∧ pdnsStep (pdnsStep (pdnsRun es) PDNSEvent.close) PDNSEvent.close
        = pdnsStep (pdnsRun es) PDNSEvent.close := by
  obtain ⟨h1, h2⟩ := pdnsRun_inv es
  refine ⟨by split_ifs at h1 <;> omega, by split_ifs at h2 <;> omega, ?_⟩
  have hclosed : (pdnsStep (pdnsRun es) PDNSEvent.close).closed = true := by
    simp only [pdnsStep]
    split_ifs with h <;> simp_all
  have key : ∀ t : PDNSState, t.closed = true →
      pdnsStep t PDNSEvent.close = t := by
    intro t ht
    simp [pdnsStep, ht]
  exact key _ hclosed

/-- Counterexample to claim C6 as stated: in the Closed state a manual
ResolveNow is not a no-op — `PeriodicDNSResolver.ResolveNow` forwards to the
inner resolver unconditionally, so right after a Close it still triggers the
inner resolver's ResolveNow. -/
theorem pdns_resolveNow_after_close_forwards :
    (pdnsStep pdnsInit PDNSEvent.close).closed = true
    ∧ (pdnsStep (pdnsStep pdnsInit PDNSEvent.close) PDNSEvent.resolveNow).innerResolves
        ≠ (pdnsStep pdnsInit PDNSEvent.close).innerResolves := by
  constructor
  · rfl
  · decide

/-- Claim C6 as amended: once the resolver is Closed, timer ticks are no-ops
(the refresh loop has returned), but a ResolveNow call still forwards to the
inner resolver's ResolveNow. -/
theorem pdns_closed_tick_noop_resolveNow_forwards (s : PDNSState)
    (h : s.closed = true) :
    pdnsStep s PDNSEvent.tick = s
    ∧ (pdnsStep s PDNSEvent.resolveNow).innerResolves = s.innerResolves + 1 := by
  constructor
  · simp [pdnsStep, h]
  · rfl

/-- Witness for the amended C6 at the state reached by Close from init. -/
theorem pdns_closed_tick_noop_resolveNow_forwards_witness :
    pdnsStep (pdnsStep pdnsInit PDNSEvent.close) PDNSEvent.tick
      = pdnsStep pdnsInit PDNSEvent.close
    ∧ (pdnsStep (pdnsStep pdnsInit PDNSEvent.close) PDNSEvent.resolveNow).innerResolves
        = (pdnsStep pdnsInit PDNSEvent.close).innerResolves + 1 :=
  pdns_closed_tick_noop_resolveNow_forwards (pdnsStep pdnsInit PDNSEvent.close)
    (by rfl)

/-- Claim C3 evaluation (the code diverges from the claim): after
`RegisterResolvers` runs against the registry gRPC starts with, the "static"
scheme is served by the repository's static builder, but "dns" is still served
by the stock grpc DNS builder — the periodic builder, whose scheme would be
"dns" and whose intended interval constant is 30 seconds, is never
registered. -/
theorem dns_scheme_not_periodic :
    registryGet (RegisterResolvers grpcInitRegistry) "static"
      = some ResolverBuilderTag.staticBuilderTag
    ∧ registryGet (RegisterResolvers grpcInitRegistry) "dns"
        = some ResolverBuilderTag.grpcDNSBuilderTag
    ∧ registryGet (RegisterResolvers grpcInitRegistry) "dns"
        ≠ some (ResolverBuilderTag.periodicDNSBuilderTag defaultReResolveInterval)
    ∧ tagScheme (ResolverBuilderTag.periodicDNSBuilderTag defaultReResolveInterval)
        = "dns" := by
  refine ⟨rfl, rfl, ?_, rfl⟩
  decide

/-- Claim C7: building a connection for a target whose scheme has no
registered resolver fails with UnknownScheme and returns no connection
handle. -/
theorem newClientConn_unknownScheme (target : String)
    (h : registryGet (RegisterResolvers grpcInitRegistry) (parseScheme target)
      = none) :
    NewClientConn target = Except.error LBError.unknownScheme := by
  simp only [NewClientConn]
  rw [h]

/-- Witness for C7 at the "bogus" scheme. -/
theorem newClientConn_unknownScheme_witness :
    NewClientConn "bogus:///localhost:50051" = Except.error LBError.unknownScheme :=
  newClientConn_unknownScheme "bogus:///localhost:50051" (by rfl)

/-- Claim C8: after `RegisterHealthServer`, both the empty-string service
(overall server health) and "sharding.v1.ShardingService" read SERVING, with
no later SetServingStatus call needed. -/
theorem registerHealthServer_serving :
    getServingStatus RegisterHealthServer "" = some HealthStatus.serving
    ∧ getServingStatus RegisterHealthServer "sharding.v1.ShardingService"
        = some HealthStatus.serving := ⟨rfl, rfl⟩

/-- Shifting a residue window: with all of `a`, `b`, `j` below `k`, the sum
`a + b` has residue `j` exactly when `b` is the shifted residue. -/
theorem mod_shift_iff (k a b j : Nat) (hk : 0 < k) (ha : a < k) (hb : b < k)
    (hj : j < k) : ((a + b) % k = j) ↔ (b = (j + k - a) % k) := by
  have e1 : (j + k - a) % k = if a ≤ j then j - a else j + k - a := by
    split_ifs with hle
    · have e : j + k - a = (j - a) + k := by omega
      rw [e, Nat.add_mod_right, Nat.mod_eq_of_lt (by omega)]
    · rw [Nat.mod_eq_of_lt (by omega)]
  have e2 : (a + b) % k = if a + b < k then a + b else a + b - k := by
    split_ifs with hlt
    · exact Nat.mod_eq_of_lt hlt
    · have e : a + b = (a + b - k) + k := by omega
      rw [e, Nat.add_mod_right, Nat.mod_eq_of_lt (by omega)]
      omega
  rw [e1, e2]
  split_ifs <;> omega

/-- With every address healthy, `m` dispatches from cursor `c` walk the list
round-robin: the i-th selection is slot `(c + i) % length`. -/
theorem rrRun_healthy (healthOf : Address → HealthStatus) (addrs : List Address)
    (hfil : addrs.filter (dispatchable healthOf) = addrs)
    (hpos : 0 < addrs.length) :
    ∀ (m c : Nat), rrRun healthOf addrs c m =
      (List.range m).map
        (fun i => addrs.get ⟨(c + i) % addrs.length, Nat.mod_lt _ hpos⟩) := by
  intro m
  induction m with
  | zero => intro c; rfl
  | succ m ih =>
    intro c
    have hlt : c % addrs.length < addrs.length := Nat.mod_lt _ hpos
    have hdisp : rrDispatch healthOf addrs c =
        some (addrs.get ⟨c % addrs.length, hlt⟩, c + 1) := by
      simp only [rrDispatch, hfil]
      rw [List.get?_eq_get hlt]
    simp only [rrRun, hdisp]
    rw [List.range_succ_eq_map, List.map_cons, List.map_map]
    congr 1
    rw [ih (c + 1)]
    apply List.map_congr_left
    intro i _
    refine congrArg addrs.get (Fin.ext ?_)
    have e : c + Nat.succ i = (c + 1) + i := by omega
    rw [e]

/-- With distinct addresses, the times slot `j` is selected among `m`
dispatches from cursor `c` is the residue count `rrCountFrom`. -/
theorem count_rrRun (healthOf : Address → HealthStatus) (addrs : List Address)
    (hfil : addrs.filter (dispatchable healthOf) = addrs)
    (hpos : 0 < addrs.length) (hnd : addrs.Nodup) (c m : Nat)
    (j : Fin addrs.length) :
    (rrRun healthOf addrs c m).count (addrs.get j) =
      rrCountFrom addrs.length c m j.val := by
  rw [rrRun_healthy healthOf addrs hfil hpos m c]
  unfold rrCountFrom
  rw [← List.countP_eq_length_filter, List.count, List.countP_map]
  apply List.countP_congr
  intro i _
  simp only [Function.comp_apply, beq_iff_eq, decide_eq_decide]
  rw [hnd.get_inj_iff]
  exact ⟨fun h => by simpa using congrArg Fin.val h,
         fun h => Fin.ext (by simpa using h)⟩

theorem rrCount_succ (k m j : Nat) :
    rrCount k (m + 1) j = rrCount k m j + (if m % k = j then 1 else 0) := by
  unfold rrCount
  rw [List.range_succ, List.filter_append, List.length_append]
  congr 1
  simp only [List.filter]
  split_ifs with h
  · simp_all
  · simp_all

/-- The closed form of the residue count from cursor 0. -/
theorem rrCount_eq (k m j : Nat) (hk : 0 < k) (hj : j < k) :
    rrCount k m j = m / k + (if j < m % k then 1 else 0) := by
  induction m with
  | zero => simp [rrCount]
  | succ m ih =>
    have hr : m % k < k := Nat.mod_lt _ hk
    have hdm := Nat.div_add_mod m k
    have hdiv : (m + 1) / k = m / k + (m % k + 1) / k := by
      conv_lhs => rw [← hdm, Nat.add_assoc]
      rw [Nat.mul_add_div hk]
    have hmod : (m + 1) % k = (m % k + 1) % k := by
      conv_lhs => rw [← hdm, Nat.add_assoc]
      rw [Nat.mul_add_mod]
    rw [rrCount_succ, ih, hdiv, hmod]
    rcases Nat.lt_or_ge (m % k + 1) k with hcase | hcase
    · rw [Nat.div_eq_of_lt hcase, Nat.mod_eq_of_lt hcase]
      split_ifs <;> omega
    · have hek : m % k + 1 = k := by omega
      rw [hek, Nat.div_self hk, Nat.mod_self]
      split_ifs <;> omega

/-- Residue counts from any cursor reduce to counts from cursor 0 at the
shifted residue. -/
theorem rrCountFrom_eq_rrCount (k c m j : Nat) (hk : 0 < k) (hj : j < k) :
    rrCountFrom k c m j = rrCount k m ((j + k - c % k) % k) := by
  unfold rrCountFrom rrCount
  congr 1
  apply List.filter_congr
  intro i _
  have ha : c % k < k := Nat.mod_lt _ hk
  have hb : i % k < k := Nat.mod_lt _ hk
  rw [decide_eq_decide, Nat.add_mod]
  exact mod_shift_iff k (c % k) (i % k) j hk ha hb hj

/-- Claim C4: against a stable list of distinct, all-healthy addresses, over
any window of M consecutive round-robin dispatches (starting at any cursor),
each address is selected exactly M/K times when K divides M, and per-address
counts never differ by more than 1. -/
theorem roundRobin_distribution (healthOf : Address → HealthStatus)
    (addrs : List Address) (M c : Nat)
    (hnd : addrs.Nodup) (hne : addrs ≠ [])
    (hhealthy : ∀ a ∈ addrs, dispatchable healthOf a = true)
    (j j' : Fin addrs.length) :
    (addrs.length ∣ M →
      (rrRun healthOf addrs c M).count (addrs.get j) = M / addrs.length)
    ∧ (rrRun healthOf addrs c M).count (addrs.get j)
        ≤ (rrRun healthOf addrs c M).count (addrs.get j') + 1 := by
  have hpos : 0 < addrs.length := List.length_pos.mpr hne
  have hfil : addrs.filter (dispatchable healthOf) = addrs :=
    List.filter_eq_self.mpr hhealthy
  have hj0 : (j.val + addrs.length - c % addrs.length) % addrs.length
      < addrs.length := Nat.mod_lt _ hpos
  have hj0' : (j'.val + addrs.length - c % addrs.length) % addrs.length
      < addrs.length := Nat.mod_lt _ hpos
  rw [count_rrRun healthOf addrs hfil hpos hnd c M j,
      count_rrRun healthOf addrs hfil hpos hnd c M j',
      rrCountFrom_eq_rrCount _ _ _ _ hpos j.isLt,
      rrCountFrom_eq_rrCount _ _ _ _ hpos j'.isLt,
      rrCount_eq _ _ _ hpos hj0, rrCount_eq _ _ _ hpos hj0']
  constructor
  · intro hdvd
    have hz : M % addrs.length = 0 := Nat.mod_eq_zero_of_dvd hdvd
    simp [hz]
  · split_ifs <;> omega

/-- Witness for C4: 3 healthy addresses, 900 sequential dispatches from a
fresh balancer select each address exactly 300 times. -/
theorem roundRobin_distribution_witness :
    (rrRun (fun _ => HealthStatus.serving)
        [Address.mk "h1:50051", Address.mk "h2:50051", Address.mk "h3:50051"]
        0 900).count (Address.mk "h1:50051") = 300
    ∧ (rrRun (fun _ => HealthStatus.serving)
        [Address.mk "h1:50051", Address.mk "h2:50051", Address.mk "h3:50051"]
        0 900).count (Address.mk "h2:50051") = 300
    ∧ (rrRun (fun _ => HealthStatus.serving)
        [Address.mk "h1:50051", Address.mk "h2:50051", Address.mk "h3:50051"]
        0 900).count (Address.mk "h3:50051") = 300 := by
  have h0 := (roundRobin_distribution (fun _ => HealthStatus.serving)
    [Address.mk "h1:50051", Address.mk "h2:50051", Address.mk "h3:50051"] 900 0
    (by decide) (by decide) (fun a _ => rfl) ⟨0, by decide⟩ ⟨1, by decide⟩).1
    (by decide)
  have h1 := (roundRobin_distribution (fun _ => HealthStatus.serving)
    [Address.mk "h1:50051", Address.mk "h2:50051", Address.mk "h3:50051"] 900 0
    (by decide) (by decide) (fun a _ => rfl) ⟨1, by decide⟩ ⟨0, by decide⟩).1
    (by decide)
  have h2 := (roundRobin_distribution (fun _ => HealthStatus.serving)
    [Address.mk "h1:50051", Address.mk "h2:50051", Address.mk "h3:50051"] 900 0
    (by decide) (by decide) (fun a _ => rfl) ⟨2, by decide⟩ ⟨0, by decide⟩).1
    (by decide)
  refine ⟨?_, ?_, ?_⟩
  · simpa using h0
  · simpa using h1
  · simpa using h2

theorem hexVal_hexDigitChar (k : Nat) (hk : k < 16) :
    hexVal (hexDigitChar k) = some k := by
  interval_cases k <;> decide

/-- The reader undoes a \uXXXX escape of any character below 0x10000. -/
theorem unqAux_uEscape (c : Char) (hlt : c.toNat < 65536) (rest : List Char) :
    unqAux (uEscape c ++ rest) = (unqAux rest).map (fun p => (c :: p.1, p.2)) := by
  have h16 : (16 : Nat) > 0 := by norm_num
  have e1 : hexVal (hexDigitChar (c.toNat / 4096 % 16)) =
      some (c.toNat / 4096 % 16) := hexVal_hexDigitChar _ (Nat.mod_lt _ h16)
  have e2 : hexVal (hexDigitChar (c.toNat / 256 % 16)) =
      some (c.toNat / 256 % 16) := hexVal_hexDigitChar _ (Nat.mod_lt _ h16)
  have e3 : hexVal (hexDigitChar (c.toNat / 16 % 16)) =
      some (c.toNat / 16 % 16) := hexVal_hexDigitChar _ (Nat.mod_lt _ h16)
  have e4 : hexVal (hexDigitChar (c.toNat % 16)) =
      some (c.toNat % 16) := hexVal_hexDigitChar _ (Nat.mod_lt _ h16)
  have hval : ((c.toNat / 4096 % 16 * 16 + c.toNat / 256 % 16) * 16
      + c.toNat / 16 % 16) * 16 + c.toNat % 16 = c.toNat := by omega
  simp [uEscape, toHex4, unqAux, e1, e2, e3, e4, hval, Char.ofNat_toNat]

/-- The reader undoes the escaper on any character sequence: reading the
escaped body up to a closing quote returns exactly the original characters. -/
theorem unqAux_flatMap_escape (cs t : List Char) :
    unqAux (cs.flatMap escapeChar ++ '"' :: t) = some (cs, t) := by
  induction cs with
  | nil =>
    rw [List.flatMap_nil, List.nil_append, unqAux.eq_def]
    simp
  | cons c cs ih =>
    rw [List.flatMap_cons, List.append_assoc]
    by_cases h1 : c = '"'
    · subst h1
      have he : escapeChar '"' = ['\\', '"'] := by decide
      rw [he, List.cons_append, List.cons_append, List.nil_append, unqAux.eq_def]
      simp [ih]
    by_cases h2 : c = '\\'
    · subst h2
      have he : escapeChar '\\' = ['\\', '\\'] := by decide
      rw [he, List.cons_append, List.cons_append, List.nil_append, unqAux.eq_def]
      simp [ih]
    by_cases h3 : c = '\n'
    · subst h3
      have he : escapeChar '\n' = ['\\', 'n'] := by decide
      rw [he, List.cons_append, List.cons_append, List.nil_append, unqAux.eq_def]
      simp [ih]
    by_cases h4 : c = '\r'
    · subst h4
      have he : escapeChar '\r' = ['\\', 'r'] := by decide
      rw [he, List.cons_append, List.cons_append, List.nil_append, unqAux.eq_def]
      simp [ih]
    by_cases h5 : c = '\t'
    · subst h5
      have he : escapeChar '\t' = ['\\', 't'] := by decide
      rw [he, List.cons_append, List.cons_append, List.nil_append, unqAux.eq_def]
      simp [ih]
    by_cases h6 : c = '<'
    · subst h6
      have he : escapeChar '<' = uEscape '<' := by decide
      rw [he, unqAux_uEscape '<' (by decide), ih]
      simp
    by_cases h7 : c = '>'
    · subst h7
      have he : escapeChar '>' = uEscape '>' := by decide
      rw [he, unqAux_uEscape '>' (by decide), ih]
      simp
    by_cases h8 : c = '&'
    · subst h8
      have he : escapeChar '&' = uEscape '&' := by decide
      rw [he, unqAux_uEscape '&' (by decide), ih]
      simp
    by_cases h9 : c.toNat < 0x20
    · have he : escapeChar c = uEscape c := by
        simp [escapeChar, h1, h2, h3, h4, h5, h6, h7, h8, h9]
      rw [he, unqAux_uEscape c (by omega), ih]
      simp
    by_cases h10 : c.toNat = 0x2028
    · have he : escapeChar c = uEscape c := by
        simp [escapeChar, h1, h2, h3, h4, h5, h6, h7, h8, h9, h10]
      rw [he, unqAux_uEscape c (by omega), ih]
      simp
    by_cases h11 : c.toNat = 0x2029
    · have he : escapeChar c = uEscape c := by
        simp [escapeChar, h1, h2, h3, h4, h5, h6, h7, h8, h9, h10, h11]
      rw [he, unqAux_uEscape c (by omega), ih]
      simp
    · have he : escapeChar c = [c] := by
        simp [escapeChar, h1, h2, h3, h4, h5, h6, h7, h8, h9, h10, h11]
      rw [he, List.singleton_append, unqAux.eq_def]
      simp [h1, h2, ih]

theorem dropExact_append (ps rest : List Char) :
    dropExact ps (ps ++ rest) = some rest := by
  induction ps with
  | nil => rfl
  | cons p ps ih => simp [dropExact, ih]

/-- The marshaller succeeds on the config value and produces the serviceName
string literal between the two fixed object fragments. -/
theorem goMarshal_serviceConfig (s : String) :
    goMarshal (serviceConfigValue s) =
      Except.ok (svcCfgBefore ++ goQuote s ++ svcCfgAfter) := by
  obtain ⟨d⟩ := s
  simp only [goMarshal, goMarshalElems, goMarshalFields, serviceConfigValue,
    joinComma, bind, Except.bind, pure, Except.map, Except.pure, Except.ok.injEq,
    goQuote, goQuoteChars, svcCfgBefore, svcCfgAfter]
  apply String.ext
  simp only [String.data_append, List.append_assoc, List.cons_append,
    List.nil_append, List.singleton_append]
  rfl

theorem DefaultServiceConfig_eq (s : String) :
    DefaultServiceConfig s = svcCfgBefore ++ goQuote s ++ svcCfgAfter := by
  unfold DefaultServiceConfig
  rw [goMarshal_serviceConfig]

theorem parseServiceConfig_roundtrip (s : String) :
    parseServiceConfig (DefaultServiceConfig s) = some s := by
  rw [DefaultServiceConfig_eq]
  unfold parseServiceConfig
  have hd : (svcCfgBefore ++ goQuote s ++ svcCfgAfter).data
      = svcCfgBefore.data ++ ((goQuote s).data ++ svcCfgAfter.data) := by
    rw [String.data_append, String.data_append, List.append_assoc]
  rw [hd, dropExact_append]
  have hq : (goQuote s).data ++ svcCfgAfter.data
      = '"' :: (s.data.flatMap escapeChar ++ '"' :: svcCfgAfter.data) := by
    simp [goQuote, goQuoteChars, List.append_assoc]
  simp only [bind, Option.bind, hq]
  rw [show unquoteString
        ('"' :: (s.data.flatMap escapeChar ++ '"' :: svcCfgAfter.data))
      = unqAux (s.data.flatMap escapeChar ++ '"' :: svcCfgAfter.data) from rfl]
  rw [unqAux_flatMap_escape]
  simp

/-- Claim C10: for every serviceName, `json.Marshal` succeeds on the config
value (so the fallback branch is unreachable and the marshalled string is
returned), and the returned string is the JSON object whose
healthCheckConfig.serviceName literal decodes back to the given serviceName
and whose loadBalancingConfig is the one-element round_robin list. -/
theorem DefaultServiceConfig_total_and_wellformed (serviceName : String) :
    goMarshal (serviceConfigValue serviceName)
      = Except.ok (svcCfgBefore ++ goQuote serviceName ++ svcCfgAfter)
    ∧ DefaultServiceConfig serviceName
        = svcCfgBefore ++ goQuote serviceName ++ svcCfgAfter
    ∧ parseServiceConfig (DefaultServiceConfig serviceName) = some serviceName :=
  ⟨goMarshal_serviceConfig serviceName, DefaultServiceConfig_eq serviceName,
   parseServiceConfig_roundtrip serviceName⟩
